import Mathlib

/-!
Verification of the weather-dashboard CSV core (`src/lib/csv-parser.ts` and
`src/lib/types.ts`): the record parser `parseCSV`, the merge/dedup engine
`mergeReadings`, the statistics aggregator `computeStats`, and the range
filter `filterByDateRange`.

Modelling conventions:
* JavaScript numbers are modelled as exact rationals (`ℚ`); `toFixed(1)`
  followed by the unary `+` is modelled by `toFixed1`, which rounds to one
  decimal with ties taken toward the larger value, as the ECMAScript
  `Number.prototype.toFixed` specification prescribes. `jsParseFloat`
  returns the exact mathematical value of the decimal literal; the IEEE
  double image of a value at or beyond `2 ^ 1024 - 2 ^ 970` is `Infinity`,
  which the source's `isNaN`-only guard does not discard — the embedding
  keeps such readings with their exact value, mirroring the code path in
  which a reading with an infinite field enters the sequence (see C6).
* A JavaScript `Date` produced by parsing the device's
  `YYYY-MM-DD HH:MM:SS` strings is modelled by the `JSDate` structure of
  calendar components; `Date.prototype.getTime` is modelled by `getTime`,
  using the standard civil-from-days epoch arithmetic (in milliseconds).
* The regular-expression extractions `/Humidity:\s*([\d.]+)%/i` and
  `/Temp:\s*([\d.]+)C/i` are modelled by `searchCapture`, a left-to-right
  scan that at each position matches the label case-insensitively, skips a
  run of whitespace, greedily captures a nonempty run of digits/dots and
  requires the terminator character; since the whitespace class, the
  digit/dot class and the terminator are pairwise disjoint, this
  backtracking-free scan agrees with the regex engine.
* `Array.prototype.sort` with the numeric comparator is a stable comparison
  sort; it is modelled by `List.insertionSort` on the timestamp key.
* `new Date()` read inside `filterByDateRange` is modelled by an explicit
  argument `now : Int` (epoch milliseconds) holding the value the ambient
  clock returned at the moment of the call.
-/

/-- Characters treated as whitespace by the model (covers the `\s` class and
`String.prototype.trim` for the ASCII device data). -/
def isSpaceChar (c : Char) : Bool :=
  c == ' ' || c == '\t' || c == '\n' || c == '\r' || c == '\x0b' || c == '\x0c'

/-- The character class `[\d.]` of the numeric capture groups. -/
def isDigitDot (c : Char) : Bool :=
  c.isDigit || c == '.'

/-- Model of `String.prototype.trim` on a character list. -/
def trimChars (cs : List Char) : List Char :=
  ((cs.dropWhile isSpaceChar).reverse.dropWhile isSpaceChar).reverse

/-- Model of `raw.replace(/\r\n/g, "\n")`: left-to-right, non-overlapping. -/
def replaceCRLF : List Char → List Char
  | '\r' :: '\n' :: rest => '\n' :: replaceCRLF rest
  | c :: rest => c :: replaceCRLF rest
  | [] => []

/-- Numeric value of a digit string (most significant first). -/
def natOfDigits (cs : List Char) : Nat :=
  cs.foldl (fun a c => a * 10 + (c.toNat - 48)) 0

/-- A parsed `Date`: the calendar components of a device timestamp
`YYYY-MM-DD HH:MM:SS`, interpreted at second precision. -/
structure JSDate where
  year : Nat
  month : Nat
  day : Nat
  hour : Nat
  minute : Nat
  second : Nat
deriving DecidableEq, Repr

/-- Days from the civil epoch 1970-01-01 (Hinnant's algorithm, with the
truncating integer division the reference C++ formulation relies on). -/
def daysFromCivil (y m d : Int) : Int :=
  let y2 := if m ≤ 2 then y - 1 else y
  let era := (if 0 ≤ y2 then y2 else y2 - 399) / 400
  let yoe := y2 - era * 400
  let doy := (153 * (if 2 < m then m - 3 else m + 9) + 2) / 5 + d - 1
  let doe := yoe * 365 + yoe / 4 - yoe / 100 + doy
  era * 146097 + doe - 719468

/-- Model of `Date.prototype.getTime`: epoch milliseconds of a `JSDate`. -/
def getTime (t : JSDate) : Int :=
  daysFromCivil t.year t.month t.day * 86400000
    + t.hour * 3600000 + t.minute * 60000 + t.second * 1000

/-- Consume a nonempty digit run followed by the separator `sep`. -/
def digitsThen (sep : Char) (cs : List Char) : Option (Nat × List Char) :=
  let ds := cs.takeWhile Char.isDigit
  if ds.isEmpty then none
  else
    match cs.dropWhile Char.isDigit with
    | c :: rest => if c = sep then some (natOfDigits ds, rest) else none
    | [] => none

/-- Consume a nonempty digit run that must end the input. -/
def digitsEnd (cs : List Char) : Option Nat :=
  let ds := cs.takeWhile Char.isDigit
  if ds.isEmpty then none
  else if (cs.dropWhile Char.isDigit).isEmpty then some (natOfDigits ds) else none

/-- Model of `new Date(timestampStr)` restricted to the device's timestamp shape
`YYYY-MM-DD HH:MM:SS` (the input contract of the upstream collaborator);
any string not of that shape, or with out-of-range components, is the
invalid date (`none`), which the parser's `isNaN(timestamp.getTime())`
guard discards. -/
def parseTimestamp (cs : List Char) : Option JSDate := do
  let (y, r1) ← digitsThen '-' cs
  let (mo, r2) ← digitsThen '-' r1
  let (d, r3) ← digitsThen ' ' r2
  let (h, r4) ← digitsThen ':' r3
  let (mi, r5) ← digitsThen ':' r4
  let s ← digitsEnd r5
  if 1 ≤ mo ∧ mo ≤ 12 ∧ 1 ≤ d ∧ d ≤ 31 ∧ h ≤ 23 ∧ mi ≤ 59 ∧ s ≤ 59 then
    some ⟨y, mo, d, h, mi, s⟩
  else
    none

/-- Case-insensitive prefix test (the `i` regex flag). -/
def ciPrefixOf (label : List Char) (cs : List Char) : Bool :=
  label.isPrefixOf (cs.map Char.toLower)

/-- Attempt the pattern `label\s*([\d.]+)term` (case-insensitive) anchored at
the start of `cs`; returns the capture group on success. -/
def matchAt (label : List Char) (term : Char) (cs : List Char) : Option (List Char) :=
  if ciPrefixOf label cs then
    let rest := (cs.drop label.length).dropWhile isSpaceChar
    let cap := rest.takeWhile isDigitDot
    if cap.isEmpty then none
    else
      match rest.drop cap.length with
      | c :: _ => if c.toLower = term then some cap else none
      | [] => none
  else none

/-- Model of `String.prototype.match` with `/label\s*([\d.]+)term/i`: scan positions
left to right and return the first successful capture. -/
def searchCapture (label : List Char) (term : Char) : List Char → Option (List Char)
  | [] => none
  | c :: rest =>
    match matchAt label term (c :: rest) with
    | some cap => some cap
    | none => searchCapture label term rest

/-- Model of `parseFloat` on the relevant fragment of number syntax: optional sign,
then a decimal literal `digits [. digits]`, parsing the longest valid
prefix; an input with no parseable prefix is `NaN`, modelled as `none`. -/
def jsParseFloat (cs : List Char) : Option ℚ :=
  let sign : ℚ := if cs.head? = some '-' then -1 else 1
  let rest := if cs.head? = some '-' ∨ cs.head? = some '+' then cs.tail else cs
  let intPart := rest.takeWhile Char.isDigit
  let rest2 := rest.dropWhile Char.isDigit
  let fracPart :=
    match rest2 with
    | '.' :: t => t.takeWhile Char.isDigit
    | _ => []
  if intPart.isEmpty && fracPart.isEmpty then none
  else some (sign * ((natOfDigits intPart : ℚ) + (natOfDigits fracPart : ℚ) / 10 ^ fracPart.length))

/-- One sensor observation (`WeatherReading` of `src/lib/types.ts`). -/
structure WeatherReading where
  timestamp : JSDate
  temperature : ℚ
  humidity : ℚ
deriving DecidableEq, Repr

/-- The deduplication/sorting key: `r.timestamp.getTime()`. -/
def key (r : WeatherReading) : Int :=
  getTime r.timestamp

/-- The label list of the humidity pattern, lowercased. -/
def humLabel : List Char := ['h', 'u', 'm', 'i', 'd', 'i', 't', 'y', ':']

/-- The label list of the temperature pattern, lowercased. -/
def tempLabel : List Char := ['t', 'e', 'm', 'p', ':']

/-- The header token of the skip test `line.toLowerCase().startsWith("timestamp")`. -/
def headerLabel : List Char := ['t', 'i', 'm', 'e', 's', 't', 'a', 'm', 'p']

/-- Model of `line.substring(0, commaIndex).trim()`: the timestamp field before the
first comma. -/
def tsField (line : List Char) : List Char :=
  trimChars (line.takeWhile (fun c => ¬ c = ','))

/-- Model of `line.substring(commaIndex + 1).trim()`: the payload after the first
comma. -/
def dataField (line : List Char) : List Char :=
  trimChars ((line.dropWhile (fun c => ¬ c = ',')).drop 1)

/-- The body of one iteration of the `parseCSV` loop: trim the line, skip
blank lines and header rows, split at the first comma, parse the timestamp,
extract the two labelled numeric captures, and build a reading; every
failure path yields `none` (the loop's `continue`). -/
def parseLine (rawLine : List Char) : Option WeatherReading :=
  let line := trimChars rawLine
  if line.isEmpty then none
  else if ciPrefixOf headerLabel line then none
  else if line.contains ',' then
    (parseTimestamp (tsField line)).bind fun ts =>
    (searchCapture humLabel '%' (dataField line)).bind fun hcap =>
    (searchCapture tempLabel 'c' (dataField line)).bind fun tcap =>
    (jsParseFloat hcap).bind fun h =>
    (jsParseFloat tcap).map fun t => (⟨ts, t, h⟩ : WeatherReading)
  else none

/-- The line list `raw.replace(/\r\n/g, "\n").trim().split("\n")`. -/
def jsLines (raw : String) : List (List Char) :=
  (trimChars (replaceCRLF raw.toList)).splitOn '\n'

/-- Embedding of `parseCSV` of `src/lib/csv-parser.ts`. -/
def parseCSV (raw : String) : List WeatherReading :=
  (jsLines raw).filterMap parseLine

/-- The dedup-by-timestamp filter of `mergeReadings`: keep the first
occurrence of each `getTime` key, tracking the keys already `seen`. -/
def dedupByTime : List WeatherReading → List Int → List WeatherReading
  | [], _ => []
  | r :: rs, seen =>
    if key r ∈ seen then dedupByTime rs seen
    else r :: dedupByTime rs (key r :: seen)

/-- The comparator `(a, b) => a.timestamp.getTime() - b.timestamp.getTime()`
as the ordering it induces. -/
def readingLE (a b : WeatherReading) : Prop :=
  key a ≤ key b

instance : DecidableRel readingLE := fun a b => by
  unfold readingLE; infer_instance

/-- Embedding of `mergeReadings` of `src/lib/csv-parser.ts`: flatten, dedup by timestamp
key (first occurrence wins), sort chronologically (stable sort). -/
def mergeReadings (readingsArrays : List (List WeatherReading)) : List WeatherReading :=
  List.insertionSort readingLE (dedupByTime readingsArrays.flatten [])

/-- Summary statistics (`WeatherStats` of `src/lib/types.ts`). -/
structure WeatherStats where
  currentTemperature : ℚ
  currentHumidity : ℚ
  avgTemperature : ℚ
  avgHumidity : ℚ
  minTemperature : ℚ
  maxTemperature : ℚ
  minHumidity : ℚ
  maxHumidity : ℚ
  totalReadings : Nat
  lastUpdated : JSDate
deriving DecidableEq, Repr

/-- Floor of a rational (kernel-computable form). -/
def ratFloor (q : ℚ) : Int :=
  Int.fdiv q.num (q.den : Int)

/-- Model of `+x.toFixed(1)`: round to one decimal place, ties toward the larger
value, exactly as ECMAScript `toFixed` picks the larger candidate `n`. -/
def toFixed1 (q : ℚ) : ℚ :=
  (ratFloor (q * 10 + 1 / 2) : ℚ) / 10

/-- Model of `Math.min(...values)` over a nonempty spread, given head and tail. -/
def mathMin (x : ℚ) (xs : List ℚ) : ℚ :=
  xs.foldl min x

/-- Model of `Math.max(...values)` over a nonempty spread, given head and tail. -/
def mathMax (x : ℚ) (xs : List ℚ) : ℚ :=
  xs.foldl max x

/-- Embedding of `computeStats` of `src/lib/csv-parser.ts`. -/
def computeStats : List WeatherReading → Option WeatherStats
  | [] => none
  | r :: rs =>
    let readings := r :: rs
    let temps := readings.map (fun x => x.temperature)
    let humids := readings.map (fun x => x.humidity)
    let latest := readings.getLast (List.cons_ne_nil r rs)
    some
      { currentTemperature := latest.temperature
        currentHumidity := latest.humidity
        avgTemperature := toFixed1 (temps.sum / (temps.length : ℚ))
        avgHumidity := toFixed1 (humids.sum / (humids.length : ℚ))
        minTemperature := mathMin r.temperature (rs.map (fun x => x.temperature))
        maxTemperature := mathMax r.temperature (rs.map (fun x => x.temperature))
        minHumidity := mathMin r.humidity (rs.map (fun x => x.humidity))
        maxHumidity := mathMax r.humidity (rs.map (fun x => x.humidity))
        totalReadings := readings.length
        lastUpdated := latest.timestamp }

/-- The four range-selector tokens (`DateRange` of `src/lib/types.ts`). -/
inductive DateRange
  | h24
  | d7
  | d30
  | all
deriving DecidableEq, Repr

/-- The `msMap` window table; the `all` entry is never consulted (the JS
lookup would be `undefined` there, and the code returns before reaching it). -/
def msMap : DateRange → Int
  | DateRange.h24 => 24 * 60 * 60 * 1000
  | DateRange.d7 => 7 * 24 * 60 * 60 * 1000
  | DateRange.d30 => 30 * 24 * 60 * 60 * 1000
  | DateRange.all => 0

/-- Embedding of `filterByDateRange` of `src/lib/csv-parser.ts`. The source reads the
ambient clock with `const now = new Date()`; the argument `now` holds the
epoch-millisecond value that clock read returns at the call. -/
def filterByDateRange (readings : List WeatherReading) (range : DateRange) (now : Int) :
    List WeatherReading :=
  if range = DateRange.all then readings
  else
    let cutoff := now - msMap range
    readings.filter (fun r => decide (cutoff ≤ key r))

/-- The spec's concrete scenario A input. -/
def sampleA : String := "2026-02-08 12:00:21,Humidity: 59.00%  Temp: 18.10C"

/-- The reading scenario A parses to. -/
def sampleReadingA : WeatherReading := ⟨⟨2026, 2, 8, 12, 0, 21⟩, 181 / 10, 59⟩

/-- The spec's concrete scenario B reading list: temperatures
18.1, 18.1, 18.2, 18.2 and humidities 59, 59, 59, 58. -/
def demoB : List WeatherReading :=
  [⟨⟨2026, 2, 8, 12, 0, 21⟩, 181 / 10, 59⟩,
   ⟨⟨2026, 2, 8, 12, 5, 21⟩, 181 / 10, 59⟩,
   ⟨⟨2026, 2, 8, 12, 10, 21⟩, 91 / 5, 59⟩,
   ⟨⟨2026, 2, 8, 12, 15, 21⟩, 91 / 5, 58⟩]

/-- The C6 failing input: a well-formed line whose temperature literal has
310 nines. Its exact value exceeds the largest finite IEEE double, so
JavaScript `parseFloat` returns `Infinity`, and the source's `isNaN`-only
guard keeps the reading. -/
def overflowLine : String :=
  "2026-02-08 12:00:21,Humidity: 59.00%  Temp: " ++ String.mk (List.replicate 310 '9') ++ "C"

instance : IsTotal WeatherReading readingLE :=
  ⟨fun a b => le_total (key a) (key b)⟩

instance : IsTrans WeatherReading readingLE :=
  ⟨fun _ _ _ h h2 => le_trans h h2⟩

/-- The function `ratFloor` agrees with the mathematical floor. -/
theorem ratFloor_eq_floor (q : ℚ) : ratFloor q = ⌊q⌋ := by
  rw [Rat.floor_def, ratFloor]
  exact Int.fdiv_eq_ediv _ (Int.ofNat_nonneg _)

/-- The rounding `toFixed1` in closed floor form. -/
theorem toFixed1_eq (q : ℚ) : toFixed1 q = ((⌊q * 10 + 1 / 2⌋ : ℤ) : ℚ) / 10 := by
  rw [toFixed1, ratFloor_eq_floor]

/-- A successful anchored match captures only digit/dot characters. -/
theorem matchAt_chars {label : List Char} {term : Char} {cs cap : List Char}
    (h : matchAt label term cs = some cap) : ∀ c ∈ cap, isDigitDot c = true := by
  simp only [matchAt] at h
  split at h
  · split at h
    · exact absurd h (by simp)
    · split at h
      · split at h
        · intro c hc
          rw [← Option.some.inj h] at hc
          exact List.mem_takeWhile_imp hc
        · exact absurd h (by simp)
      · exact absurd h (by simp)
  · exact absurd h (by simp)

/-- A successful regex search captures only digit/dot characters. -/
theorem searchCapture_chars {label : List Char} {term : Char} :
    ∀ {cs cap : List Char}, searchCapture label term cs = some cap →
      ∀ c ∈ cap, isDigitDot c = true := by
  intro cs
  induction cs with
  | nil => intro cap h; exact absurd h (by simp [searchCapture])
  | cons c rest ih =>
    intro cap h
    unfold searchCapture at h
    cases hm : matchAt label term (c :: rest) with
    | some cap2 =>
      rw [hm] at h
      exact Option.some.inj h ▸ matchAt_chars hm
    | none =>
      rw [hm] at h
      exact ih h

/-- The numeric value of a digit string is nonnegative as a rational. -/
theorem natOfDigits_cast_nonneg (cs : List Char) : (0 : ℚ) ≤ (natOfDigits cs : ℚ) :=
  Nat.cast_nonneg _

/-- Applying `jsParseFloat` to a capture made only of digits and dots never yields a
negative value: a minus sign is not in the capture class. -/
theorem jsParseFloat_nonneg {cs : List Char} (hcs : ∀ c ∈ cs, isDigitDot c = true)
    {q : ℚ} (h : jsParseFloat cs = some q) : 0 ≤ q := by
  have hsign : ∀ s : Char, cs.head? = some s → isDigitDot s = true := by
    intro s hs
    cases cs with
    | nil => exact absurd hs (by simp)
    | cons c t =>
      have hc : c = s := by simpa using hs
      exact hc ▸ hcs c (by simp)
  have hminus : ¬ cs.head? = some '-' := fun hc => by
    simpa [isDigitDot] using hsign '-' hc
  have hplus : ¬ cs.head? = some '+' := fun hc => by
    simpa [isDigitDot] using hsign '+' hc
  simp only [jsParseFloat] at h
  rw [if_neg hminus, if_neg (not_or.mpr ⟨hminus, hplus⟩)] at h
  split at h
  · exact absurd h (by simp)
  · rw [← Option.some.inj h, one_mul]
    have h1 := natOfDigits_cast_nonneg (cs.takeWhile Char.isDigit)
    positivity

/-- A line with no comma (after trimming) is discarded. -/
theorem parseLine_none_of_no_comma {l : List Char}
    (h : ',' ∉ trimChars l) : parseLine l = none := by
  simp [parseLine, h]

/-- A line whose timestamp field fails to parse is discarded. -/
theorem parseLine_none_of_bad_timestamp {l : List Char}
    (h : parseTimestamp (tsField (trimChars l)) = none) : parseLine l = none := by
  simp [parseLine, h]

/-- A line on which either labelled pattern fails to match is discarded. -/
theorem parseLine_none_of_no_match {l : List Char}
    (h : searchCapture humLabel '%' (dataField (trimChars l)) = none ∨
      searchCapture tempLabel 'c' (dataField (trimChars l)) = none) :
    parseLine l = none := by
  cases h with
  | inl h => simp [parseLine, h]
  | inr h => simp [parseLine, h]

/-- A line whose captured humidity or temperature text fails the numeric
parse is discarded. -/
theorem parseLine_none_of_bad_number {l : List Char} {hc tc : List Char}
    (hh : searchCapture humLabel '%' (dataField (trimChars l)) = some hc)
    (ht : searchCapture tempLabel 'c' (dataField (trimChars l)) = some tc)
    (h : jsParseFloat hc = none ∨ jsParseFloat tc = none) : parseLine l = none := by
  cases h with
  | inl h => simp [parseLine, hh, ht, h]
  | inr h => simp [parseLine, hh, ht, h]

/-- Inversion of a successful `parseLine`: the reading's fields come from the
timestamp parse and the two numeric captures of the line. -/
theorem parseLine_some_inv {l : List Char} {r : WeatherReading}
    (h : parseLine l = some r) :
    ∃ hcap tcap,
      searchCapture humLabel '%' (dataField (trimChars l)) = some hcap ∧
      searchCapture tempLabel 'c' (dataField (trimChars l)) = some tcap ∧
      jsParseFloat hcap = some r.humidity ∧
      jsParseFloat tcap = some r.temperature ∧
      parseTimestamp (tsField (trimChars l)) = some r.timestamp := by
  simp only [parseLine] at h
  split at h
  · exact absurd h (by simp)
  · split at h
    · exact absurd h (by simp)
    · split at h
      · rw [Option.bind_eq_some] at h
        obtain ⟨ts, hts, h⟩ := h
        rw [Option.bind_eq_some] at h
        obtain ⟨hcap, hhc, h⟩ := h
        rw [Option.bind_eq_some] at h
        obtain ⟨tcap, htc, h⟩ := h
        rw [Option.bind_eq_some] at h
        obtain ⟨hval, hhv, h⟩ := h
        rw [Option.map_eq_some'] at h
        obtain ⟨tval, htv, hr⟩ := h
        subst hr
        exact ⟨hcap, tcap, hhc, htc, hhv, htv, hts⟩
      · exact absurd h (by simp)

/-- Every reading produced by `parseLine` has nonnegative fields. -/
theorem parseLine_some_nonneg {l : List Char} {r : WeatherReading}
    (h : parseLine l = some r) : 0 ≤ r.temperature ∧ 0 ≤ r.humidity := by
  obtain ⟨hcap, tcap, hhc, htc, hhv, htv, _⟩ := parseLine_some_inv h
  exact ⟨jsParseFloat_nonneg (searchCapture_chars htc) htv,
    jsParseFloat_nonneg (searchCapture_chars hhc) hhv⟩

theorem parseLine_sampleA : parseLine sampleA.toList = some sampleReadingA := by
  unfold parseLine
  rw [if_neg (by decide), if_neg (by decide), if_pos (by decide)]
  rw [show parseTimestamp (tsField (trimChars sampleA.toList)) =
    some ⟨2026, 2, 8, 12, 0, 21⟩ from by decide]
  rw [show searchCapture humLabel '%' (dataField (trimChars sampleA.toList)) =
    some ['5', '9', '.', '0', '0'] from by decide]
  rw [show searchCapture tempLabel 'c' (dataField (trimChars sampleA.toList)) =
    some ['1', '8', '.', '1', '0'] from by decide]
  simp only [Option.some_bind]
  rw [show jsParseFloat ['5', '9', '.', '0', '0'] = some 59 from by
    simp [jsParseFloat, natOfDigits]]
  simp only [Option.some_bind]
  rw [show jsParseFloat ['1', '8', '.', '1', '0'] = some (181 / 10) from by
    simp [jsParseFloat, natOfDigits]; norm_num]
  rfl

theorem parseCSV_sampleA : parseCSV sampleA = [sampleReadingA] := by
  unfold parseCSV
  rw [show jsLines sampleA = [sampleA.toList] from by decide]
  rw [List.filterMap_cons, parseLine_sampleA]
  rfl

/-- The dedup filter emits each timestamp key at most once, and never emits a
key that was already seen. -/
theorem dedupByTime_keys :
    ∀ (l : List WeatherReading) (seen : List Int),
      ((dedupByTime l seen).map key).Nodup ∧
        ∀ k ∈ (dedupByTime l seen).map key, k ∉ seen := by
  intro l
  induction l with
  | nil => intro seen; simp [dedupByTime]
  | cons r rs ih =>
    intro seen
    unfold dedupByTime
    split
    · exact ⟨(ih seen).1, (ih seen).2⟩
    · rename_i hseen
      have hih := ih (key r :: seen)
      refine ⟨?_, ?_⟩
      · rw [List.map_cons, List.nodup_cons]
        exact ⟨fun hmem => (hih.2 _ hmem) (by simp), hih.1⟩
      · intro k hk
        rw [List.map_cons, List.mem_cons] at hk
        cases hk with
        | inl hk => rw [hk]; exact hseen
        | inr hk => exact fun hks => (hih.2 k hk) (by simp [hks])

/-- On a list whose keys are already distinct and unseen, the dedup filter is
the identity. -/
theorem dedupByTime_eq_self :
    ∀ (l : List WeatherReading) (seen : List Int),
      ((l.map key).Nodup) → (∀ r ∈ l, key r ∉ seen) → dedupByTime l seen = l := by
  intro l
  induction l with
  | nil => intro seen _ _; rfl
  | cons r rs ih =>
    intro seen hnd hout
    rw [List.map_cons, List.nodup_cons] at hnd
    unfold dedupByTime
    rw [if_neg (hout r (by simp))]
    congr 1
    refine ih _ hnd.2 ?_
    intro x hx
    simp only [List.mem_cons, not_or]
    exact ⟨fun hk => hnd.1 (hk ▸ List.mem_map_of_mem key hx), hout x (by simp [hx])⟩

/-- The merged output is pairwise non-decreasing in the timestamp key. -/
theorem mergeReadings_pairwise_le (A : List (List WeatherReading)) :
    List.Pairwise (fun a b => key a ≤ key b) (mergeReadings A) :=
  List.sorted_insertionSort readingLE _

/-- The merged output has pairwise distinct timestamp keys. -/
theorem mergeReadings_key_nodup (A : List (List WeatherReading)) :
    ((mergeReadings A).map key).Nodup := by
  have hperm := (List.perm_insertionSort readingLE (dedupByTime A.flatten [])).map key
  exact hperm.nodup_iff.mpr (dedupByTime_keys A.flatten []).1

/-- The merged output is sorted for the comparator relation itself. -/
theorem mergeReadings_sorted (A : List (List WeatherReading)) :
    List.Sorted readingLE (mergeReadings A) :=
  List.sorted_insertionSort readingLE _

/-- Merging a single already-merged sequence returns it unchanged. -/
theorem mergeReadings_single (l : List WeatherReading)
    (hnd : (l.map key).Nodup) (hs : List.Sorted readingLE l) :
    mergeReadings [l] = l := by
  unfold mergeReadings
  rw [show ([l] : List (List WeatherReading)).flatten = l from by simp]
  rw [dedupByTime_eq_self l [] hnd (by simp)]
  exact hs.insertionSort_eq

/-- The value `mathMin x xs` is a lower bound of `x` and every element of `xs`. -/
theorem mathMin_le : ∀ (xs : List ℚ) (x : ℚ),
    mathMin x xs ≤ x ∧ ∀ y ∈ xs, mathMin x xs ≤ y := by
  intro xs
  induction xs with
  | nil => intro x; exact ⟨le_refl x, by simp⟩
  | cons y ys ih =>
    intro x
    have h : mathMin x (y :: ys) = mathMin (min x y) ys := rfl
    rw [h]
    refine ⟨le_trans (ih (min x y)).1 (min_le_left x y), ?_⟩
    intro z hz
    rw [List.mem_cons] at hz
    cases hz with
    | inl hz => rw [hz]; exact le_trans (ih (min x y)).1 (min_le_right x y)
    | inr hz => exact (ih (min x y)).2 z hz

/-- The value `mathMin x xs` is attained by `x` or by an element of `xs`. -/
theorem mathMin_mem : ∀ (xs : List ℚ) (x : ℚ),
    mathMin x xs = x ∨ mathMin x xs ∈ xs := by
  intro xs
  induction xs with
  | nil => intro x; exact Or.inl rfl
  | cons y ys ih =>
    intro x
    have h : mathMin x (y :: ys) = mathMin (min x y) ys := rfl
    rw [h]
    cases ih (min x y) with
    | inl heq =>
      cases min_choice x y with
      | inl hx => exact Or.inl (heq.trans hx)
      | inr hy => exact Or.inr (by rw [heq, hy]; simp)
    | inr hmem => exact Or.inr (by simp [hmem])

/-- The value `mathMax x xs` is an upper bound of `x` and every element of `xs`. -/
theorem mathMax_ge : ∀ (xs : List ℚ) (x : ℚ),
    x ≤ mathMax x xs ∧ ∀ y ∈ xs, y ≤ mathMax x xs := by
  intro xs
  induction xs with
  | nil => intro x; exact ⟨le_refl x, by simp⟩
  | cons y ys ih =>
    intro x
    have h : mathMax x (y :: ys) = mathMax (max x y) ys := rfl
    rw [h]
    refine ⟨le_trans (le_max_left x y) (ih (max x y)).1, ?_⟩
    intro z hz
    rw [List.mem_cons] at hz
    cases hz with
    | inl hz => rw [hz]; exact le_trans (le_max_right x y) (ih (max x y)).1
    | inr hz => exact (ih (max x y)).2 z hz

/-- The value `mathMax x xs` is attained by `x` or by an element of `xs`. -/
theorem mathMax_mem : ∀ (xs : List ℚ) (x : ℚ),
    mathMax x xs = x ∨ mathMax x xs ∈ xs := by
  intro xs
  induction xs with
  | nil => intro x; exact Or.inl rfl
  | cons y ys ih =>
    intro x
    have h : mathMax x (y :: ys) = mathMax (max x y) ys := rfl
    rw [h]
    cases ih (max x y) with
    | inl heq =>
      cases max_choice x y with
      | inl hx => exact Or.inl (heq.trans hx)
      | inr hy => exact Or.inr (by rw [heq, hy]; simp)
    | inr hmem => exact Or.inr (by simp [hmem])

/-- C1 counterexample: the source reads the ambient clock inside
`filterByDateRange` (`const now = new Date()`), so two invocations with
equal declared arguments (the same one-reading list and the selector
`"24h"`) return different results when the clock reads differ: at clock
instant 0 the epoch reading is kept, at clock instant 1000000000000 it is
dropped. -/
theorem C1_counterexample :
    filterByDateRange [⟨⟨1970, 1, 1, 0, 0, 0⟩, 20, 50⟩] DateRange.h24 0 ≠
      filterByDateRange [⟨⟨1970, 1, 1, 0, 0, 0⟩, 20, 50⟩] DateRange.h24 1000000000000 := by
  decide

/-- C1 (amended): `filterByDateRange` reads `now` from the ambient clock
internally rather than taking it as a parameter; once the clock read is
modelled as an explicit input, the filter is a pure deterministic function
of (readings, range, clock instant) — invocations with equal clock
instants agree — and only the `"all"` selector's result is independent of
the clock. -/
theorem C1_deterministic_given_clock :
    (∀ (rs : List WeatherReading) (now₁ now₂ : Int),
      filterByDateRange rs DateRange.all now₁ = filterByDateRange rs DateRange.all now₂) ∧
    (∀ (rs : List WeatherReading) (range : DateRange) (now₁ now₂ : Int),
      now₁ = now₂ → filterByDateRange rs range now₁ = filterByDateRange rs range now₂) := by
  constructor
  · intro rs now₁ now₂
    rfl
  · intro rs range now₁ now₂ h
    rw [h]

/-- C1 witness: the amended statement applied at concrete inputs. -/
theorem C1_deterministic_given_clock_witness :
    filterByDateRange [] DateRange.all 0 = filterByDateRange [] DateRange.all 99 ∧
    filterByDateRange [⟨⟨1970, 1, 1, 0, 0, 0⟩, 20, 50⟩] DateRange.h24 5 =
      filterByDateRange [⟨⟨1970, 1, 1, 0, 0, 0⟩, 20, 50⟩] DateRange.h24 5 :=
  ⟨C1_deterministic_given_clock.1 [] 0 99,
    C1_deterministic_given_clock.2 [⟨⟨1970, 1, 1, 0, 0, 0⟩, 20, 50⟩] DateRange.h24 5 5 rfl⟩

/-- C2: for every input list of reading sequences, the output of
`mergeReadings` is pairwise non-decreasing in the timestamp key, no two
output elements share the same timestamp key, and an empty input list or a
list of all-empty sequences yields the empty output. -/
theorem C2_merge_sorted_dedup (A : List (List WeatherReading)) :
    List.Pairwise (fun a b => key a ≤ key b) (mergeReadings A) ∧
    List.Pairwise (fun a b => key a ≠ key b) (mergeReadings A) ∧
    ((∀ s ∈ A, s = []) → mergeReadings A = []) := by
  refine ⟨mergeReadings_pairwise_le A, ?_, ?_⟩
  · have h : List.Pairwise (fun a b => a ≠ b) ((mergeReadings A).map key) :=
      mergeReadings_key_nodup A
    exact List.pairwise_map.mp h
  · intro h
    unfold mergeReadings
    rw [List.flatten_eq_nil_iff.mpr h]
    rfl

/-- C2 witness: a list of all-empty sequences merges to the empty output. -/
theorem C2_merge_sorted_dedup_witness : mergeReadings [[], []] = [] :=
  (C2_merge_sorted_dedup [[], []]).2.2 (by simp)

/-- C3: merge is idempotent — re-merging the merged output of any two
reading sequences returns it unchanged, element for element. -/
theorem C3_merge_idempotent (a b : List WeatherReading) :
    mergeReadings [mergeReadings [a, b]] = mergeReadings [a, b] :=
  mergeReadings_single _ (mergeReadings_key_nodup _) (mergeReadings_sorted _)

/-- C4: on every non-empty readings sequence, `computeStats` returns a
summary whose current values equal the last element's fields, whose
min/max fields are the exact unrounded extrema (lower/upper bounds that
are attained), whose `totalReadings` is the length, and whose
`lastUpdated` is the last element's timestamp. -/
theorem C4_stats_fields (r : WeatherReading) (rs : List WeatherReading) :
    ∃ s, computeStats (r :: rs) = some s ∧
      s.currentTemperature = ((r :: rs).getLast (List.cons_ne_nil r rs)).temperature ∧
      s.currentHumidity = ((r :: rs).getLast (List.cons_ne_nil r rs)).humidity ∧
      (∀ x ∈ r :: rs, s.minTemperature ≤ x.temperature) ∧
      (∃ x ∈ r :: rs, s.minTemperature = x.temperature) ∧
      (∀ x ∈ r :: rs, x.temperature ≤ s.maxTemperature) ∧
      (∃ x ∈ r :: rs, s.maxTemperature = x.temperature) ∧
      (∀ x ∈ r :: rs, s.minHumidity ≤ x.humidity) ∧
      (∃ x ∈ r :: rs, s.minHumidity = x.humidity) ∧
      (∀ x ∈ r :: rs, x.humidity ≤ s.maxHumidity) ∧
      (∃ x ∈ r :: rs, s.maxHumidity = x.humidity) ∧
      s.totalReadings = (r :: rs).length ∧
      s.lastUpdated = ((r :: rs).getLast (List.cons_ne_nil r rs)).timestamp := by
  refine ⟨_, rfl, rfl, rfl, ?_, ?_, ?_, ?_, ?_, ?_, ?_, ?_, rfl, rfl⟩
  · intro x hx
    rw [List.mem_cons] at hx
    cases hx with
    | inl hx => rw [hx]; exact (mathMin_le _ _).1
    | inr hx =>
      exact (mathMin_le _ _).2 _ (List.mem_map_of_mem (fun x => x.temperature) hx)
  · cases mathMin_mem (rs.map (fun x => x.temperature)) r.temperature with
    | inl heq => exact ⟨r, by simp, heq⟩
    | inr hmem =>
      obtain ⟨x, hx, hxe⟩ := List.mem_map.mp hmem
      exact ⟨x, by simp [hx], hxe.symm⟩
  · intro x hx
    rw [List.mem_cons] at hx
    cases hx with
    | inl hx => rw [hx]; exact (mathMax_ge _ _).1
    | inr hx =>
      exact (mathMax_ge _ _).2 _ (List.mem_map_of_mem (fun x => x.temperature) hx)
  · cases mathMax_mem (rs.map (fun x => x.temperature)) r.temperature with
    | inl heq => exact ⟨r, by simp, heq⟩
    | inr hmem =>
      obtain ⟨x, hx, hxe⟩ := List.mem_map.mp hmem
      exact ⟨x, by simp [hx], hxe.symm⟩
  · intro x hx
    rw [List.mem_cons] at hx
    cases hx with
    | inl hx => rw [hx]; exact (mathMin_le _ _).1
    | inr hx =>
      exact (mathMin_le _ _).2 _ (List.mem_map_of_mem (fun x => x.humidity) hx)
  · cases mathMin_mem (rs.map (fun x => x.humidity)) r.humidity with
    | inl heq => exact ⟨r, by simp, heq⟩
    | inr hmem =>
      obtain ⟨x, hx, hxe⟩ := List.mem_map.mp hmem
      exact ⟨x, by simp [hx], hxe.symm⟩
  · intro x hx
    rw [List.mem_cons] at hx
    cases hx with
    | inl hx => rw [hx]; exact (mathMax_ge _ _).1
    | inr hx =>
      exact (mathMax_ge _ _).2 _ (List.mem_map_of_mem (fun x => x.humidity) hx)
  · cases mathMax_mem (rs.map (fun x => x.humidity)) r.humidity with
    | inl heq => exact ⟨r, by simp, heq⟩
    | inr hmem =>
      obtain ⟨x, hx, hxe⟩ := List.mem_map.mp hmem
      exact ⟨x, by simp [hx], hxe.symm⟩

/-- C4 witness: the field characterisation applied to a concrete
two-reading list. -/
theorem C4_stats_fields_witness :
    ∃ s, computeStats [⟨⟨2026, 2, 8, 12, 0, 21⟩, 20, 50⟩, ⟨⟨2026, 2, 8, 12, 5, 21⟩, 21, 49⟩] = some s ∧
      s.minTemperature ≤ 20 ∧ s.totalReadings = 2 := by
  obtain ⟨s, hs, _, _, hminle, _, _, _, _, _, _, _, htot, _⟩ :=
    C4_stats_fields (⟨⟨2026, 2, 8, 12, 0, 21⟩, 20, 50⟩ : WeatherReading)
      [⟨⟨2026, 2, 8, 12, 5, 21⟩, 21, 49⟩]
  exact ⟨s, hs, hminle ⟨⟨2026, 2, 8, 12, 0, 21⟩, 20, 50⟩ (by simp), htot⟩

/-- C5: the averages of the statistics summary are the arithmetic mean of
the field over all readings rounded to one decimal (`toFixed1`); in
particular on scenario B's readings the average temperature is 18.2
(= 91/5, mean 18.15 rounding up) and the average humidity is 58.8
(= 294/5, mean 58.75 rounding up). -/
theorem C5_averages :
    (∀ (r : WeatherReading) (rs : List WeatherReading),
      ∃ s, computeStats (r :: rs) = some s ∧
        s.avgTemperature =
          toFixed1 (((r :: rs).map (fun x => x.temperature)).sum / ((r :: rs).length : ℚ)) ∧
        s.avgHumidity =
          toFixed1 (((r :: rs).map (fun x => x.humidity)).sum / ((r :: rs).length : ℚ))) ∧
    (computeStats demoB).map (fun s => s.avgTemperature) = some (91 / 5) ∧
    (computeStats demoB).map (fun s => s.avgHumidity) = some (294 / 5) := by
  refine ⟨?_, ?_, ?_⟩
  · intro r rs
    refine ⟨_, rfl, ?_, ?_⟩
    · show toFixed1 (((r :: rs).map (fun x => x.temperature)).sum /
        (((r :: rs).map (fun x => x.temperature)).length : ℚ)) = _
      rw [List.length_map]
    · show toFixed1 (((r :: rs).map (fun x => x.humidity)).sum /
        (((r :: rs).map (fun x => x.humidity)).length : ℚ)) = _
      rw [List.length_map]
  · show some (toFixed1 ((demoB.map (fun x => x.temperature)).sum /
      ((demoB.map (fun x => x.temperature)).length : ℚ))) = some (91 / 5)
    congr 1
    rw [toFixed1_eq]
    norm_num [demoB]
  · show some (toFixed1 ((demoB.map (fun x => x.humidity)).sum /
      ((demoB.map (fun x => x.humidity)).length : ℚ))) = some (294 / 5)
    congr 1
    rw [toFixed1_eq]
    norm_num [demoB]

/-- Applying `jsParseFloat` to a nonempty all-digit capture yields exactly
the digit string's value. -/
theorem jsParseFloat_digits {cs : List Char} (h : cs ≠ [])
    (hd : ∀ c ∈ cs, Char.isDigit c = true) :
    jsParseFloat cs = some ((natOfDigits cs : ℚ)) := by
  have hminus : ¬ cs.head? = some '-' := by
    intro hc
    cases cs with
    | nil => exact absurd hc (by simp)
    | cons c t =>
      have hce : c = '-' := by simpa using hc
      have hdc := hd c (by simp)
      rw [hce] at hdc
      exact absurd hdc (by decide)
  have hplus : ¬ cs.head? = some '+' := by
    intro hc
    cases cs with
    | nil => exact absurd hc (by simp)
    | cons c t =>
      have hce : c = '+' := by simpa using hc
      have hdc := hd c (by simp)
      rw [hce] at hdc
      exact absurd hdc (by decide)
  have hne : cs.isEmpty = false := by
    cases cs with
    | nil => exact absurd rfl h
    | cons c t => rfl
  simp only [jsParseFloat]
  rw [if_neg hminus, if_neg (not_or.mpr ⟨hminus, hplus⟩)]
  rw [List.takeWhile_eq_self_iff.mpr hd, List.dropWhile_eq_nil_iff.mpr hd]
  simp only [hne, Bool.false_and, Bool.false_eq_true, if_false]
  rw [show (natOfDigits [] : ℚ) = 0 from rfl]
  norm_num

set_option maxRecDepth 40000 in
/-- The exact value of the 310-nines digit string. -/
theorem natOfDigits_nines : natOfDigits (List.replicate 310 '9') = 10 ^ 310 - 1 := by
  decide

set_option maxRecDepth 40000 in
/-- The overflow line is parsed into a reading whose temperature is the
exact value of the 310-nines literal: the `isNaN`-only guard of the source
does not discard it. -/
theorem parseLine_overflow :
    parseLine overflowLine.toList =
      some ⟨⟨2026, 2, 8, 12, 0, 21⟩, (natOfDigits (List.replicate 310 '9') : ℚ), 59⟩ := by
  unfold parseLine
  rw [if_neg (by decide), if_neg (by decide), if_pos (by decide)]
  rw [show parseTimestamp (tsField (trimChars overflowLine.toList)) =
    some ⟨2026, 2, 8, 12, 0, 21⟩ from by decide]
  rw [show searchCapture humLabel '%' (dataField (trimChars overflowLine.toList)) =
    some ['5', '9', '.', '0', '0'] from by decide]
  rw [show searchCapture tempLabel 'c' (dataField (trimChars overflowLine.toList)) =
    some (List.replicate 310 '9') from by decide]
  simp only [Option.some_bind]
  rw [show jsParseFloat ['5', '9', '.', '0', '0'] = some 59 from by
    simp [jsParseFloat, natOfDigits]]
  simp only [Option.some_bind]
  rw [jsParseFloat_digits (by decide) (by decide)]
  rfl

set_option maxRecDepth 40000 in
/-- C6 (code bug): the claim's "non-finite numeric parse is silently
discarded" conjunct is the spec's intent, but the source guards only with
`isNaN` (line 526), so a temperature capture of 310 nines — whose value
exceeds every finite IEEE double and parses to `Infinity` in JavaScript —
is kept: `parseCSV` on the overflow line yields exactly one reading whose
temperature is at least `2 ^ 1024`, beyond the finite double range,
instead of discarding the line. -/
theorem C6_overflow_reading_kept :
    ∃ r, parseCSV overflowLine = [r] ∧ (2 : ℚ) ^ 1024 ≤ r.temperature ∧ r.humidity = 59 := by
  refine ⟨⟨⟨2026, 2, 8, 12, 0, 21⟩, (natOfDigits (List.replicate 310 '9') : ℚ), 59⟩, ?_, ?_, rfl⟩
  · unfold parseCSV
    rw [show jsLines overflowLine = [overflowLine.toList] from by decide]
    rw [List.filterMap_cons, parseLine_overflow]
    rfl
  · show (2 : ℚ) ^ 1024 ≤ (natOfDigits (List.replicate 310 '9') : ℚ)
    rw [natOfDigits_nines]
    have hk : (2 ^ 1024 : ℕ) ≤ 10 ^ 310 - 1 := by norm_num
    calc (2 : ℚ) ^ 1024 = ((2 ^ 1024 : ℕ) : ℚ) := by push_cast; ring
      _ ≤ ((10 ^ 310 - 1 : ℕ) : ℚ) := Nat.cast_le.mpr hk

/-- C7: with selector `"all"` the filter returns its input unchanged; with
`"24h"`, `"7d"`, `"30d"` it returns, preserving order, exactly the
elements whose timestamp is at least `now` minus 24 hours, 7 days, 30 days
of milliseconds respectively (cutoff inclusive); every result is a
subsequence of the input. -/
theorem C7_filter_by_range (rs : List WeatherReading) (now : Int) :
    filterByDateRange rs DateRange.all now = rs ∧
    filterByDateRange rs DateRange.h24 now =
      rs.filter (fun r => decide (now - 86400000 ≤ key r)) ∧
    filterByDateRange rs DateRange.d7 now =
      rs.filter (fun r => decide (now - 604800000 ≤ key r)) ∧
    filterByDateRange rs DateRange.d30 now =
      rs.filter (fun r => decide (now - 2592000000 ≤ key r)) ∧
    (∀ range, (filterByDateRange rs range now).Sublist rs) := by
  refine ⟨rfl, rfl, rfl, rfl, ?_⟩
  intro range
  cases range with
  | h24 => exact List.filter_sublist rs
  | d7 => exact List.filter_sublist rs
  | d30 => exact List.filter_sublist rs
  | all => exact List.Sublist.refl rs

/-- C8: `computeStats` returns the "no data" sentinel `none` exactly on the
empty readings sequence. -/
theorem C8_stats_none_iff_empty (rs : List WeatherReading) :
    computeStats rs = none ↔ rs = [] := by
  cases rs with
  | nil => simp [computeStats]
  | cons r t => simp [computeStats]

/-- C9: parsing the single scenario-A line yields exactly one reading with
temperature 18.1 (= 181/10), humidity 59, and a timestamp in year 2026,
month February, day 8. -/
theorem C9_scenario_A :
    parseCSV sampleA = [sampleReadingA] ∧
    sampleReadingA.temperature = 181 / 10 ∧
    sampleReadingA.humidity = 59 ∧
    sampleReadingA.timestamp.year = 2026 ∧
    sampleReadingA.timestamp.month = 2 ∧
    sampleReadingA.timestamp.day = 8 :=
  ⟨parseCSV_sampleA, rfl, rfl, rfl, rfl, rfl⟩

/-- C10: every reading produced by `parseCSV`, on any input string, has
nonnegative temperature and humidity — the capture class admits only
digits and dots, so negative values never enter a reading sequence. -/
theorem C10_parsed_values_nonneg (raw : String) (r : WeatherReading)
    (h : r ∈ parseCSV raw) : 0 ≤ r.temperature ∧ 0 ≤ r.humidity := by
  unfold parseCSV at h
  rw [List.mem_filterMap] at h
  obtain ⟨l, _, hl⟩ := h
  exact parseLine_some_nonneg hl

/-- C10 witness: the invariant applied to the reading parsed from the
scenario-A input. -/
theorem C10_parsed_values_nonneg_witness :
    0 ≤ sampleReadingA.temperature ∧ 0 ≤ sampleReadingA.humidity :=
  C10_parsed_values_nonneg sampleA sampleReadingA
    (by rw [parseCSV_sampleA]; exact List.mem_singleton.mpr rfl)
